import Mathlib

/-!
Verification of the fee-manager fold delegate
(`offchain/offchain/src/fold/fee_manager_delegate.rs`).

The delegate is embedded shallowly: 256-bit machine integers (`U256`) become
`Nat` below `2 ^ 256`, addresses become `Nat`, the persistent `im::HashMap`
becomes an association list (`lookupA` / `entryOr` / `updateA` below reproduce
`get`, `entry(..).or_insert_with(..)` and map assignment), and the
asynchronous event queries of the state-fold access port become explicit
`Except`-valued inputs: a call that would issue a query receives the value
that query would have returned.  A Rust panic (`unwrap` on `None`, array
index out of bounds, `U256` addition overflow — ethers `U256 + U256` panics
on overflow, it does not wrap) is modelled as the `RtError.panicked` outcome,
distinct from the typed `RtError.queryError` results produced by
`.context(..)`.
-/

set_option linter.unusedVariables false

namespace FeeManagerFold

/-! ## Position codec

`convert_voucher_position_to_indices` (source lines 28-48): the position is
written as 32 big-endian bytes; bytes [8,16) are the voucher index, [16,24)
the input index, [24,32) the epoch index, each read back as a big-endian u64.
-/

/-- Big-endian byte string of length `w` of a natural number, most significant
byte first: `U256.to_big_endian` for `w = 32`. -/
def beBytes : Nat → Nat → List Nat
  | 0, _ => []
  | n + 1, x => x / 256 ^ n % 256 :: beBytes n x

/-- Reassemble a big-endian byte string into a number: `u64::from_be_bytes`. -/
def beU64 (bs : List Nat) : Nat :=
  bs.foldl (fun a b => a * 256 + b) 0

/-- Source lines 28-48.  The argument is a `U256`, hence reduced modulo
`2 ^ 256`; the first eight bytes of the big-endian representation are ignored. -/
def convert_voucher_position_to_indices (voucher_position : Nat) :
    Nat × Nat × Nat :=
  let pos_bytes := beBytes 32 (voucher_position % 2 ^ 256)
  (beU64 ((pos_bytes.drop 8).take 8),
   beU64 ((pos_bytes.drop 16).take 8),
   beU64 ((pos_bytes.drop 24).take 8))

/-- The packing documented at source line 26:
`voucher_position = voucher_index * 2 ^ 128 + input_index * 2 ^ 64 + epoch`. -/
def encode_voucher_position (voucher_index input_index epoch : Nat) : Nat :=
  voucher_index * 2 ^ 128 + input_index * 2 ^ 64 + epoch

/-! ## Association-list model of `im::HashMap` -/

/-- `HashMap::get`. -/
def lookupA {α : Type} : List (Nat × α) → Nat → Option α
  | [], _ => none
  | (k, v) :: rest, a => if k = a then some v else lookupA rest a

/-- `HashMap::entry(k).or_insert_with(|| d)` followed by further mutation `g`
of the entry's value: if the key is present its value becomes `g v`, otherwise
`(k, g d)` is added. -/
def entryOr {α : Type} : List (Nat × α) → Nat → α → (α → α) → List (Nat × α)
  | [], k, d, g => [(k, g d)]
  | (k', v) :: rest, k, d, g =>
    if k' = k then (k', g v) :: rest else (k', v) :: entryOr rest k d g

/-- Map assignment `m[k] = v`: overwrite if present, insert otherwise. -/
def updateA {α : Type} : List (Nat × α) → Nat → α → List (Nat × α)
  | [], k, v => [(k, v)]
  | (k', v') :: rest, k, v =>
    if k' = k then (k', v) :: rest else (k', v') :: updateA rest k v

/-! ## Voucher ledger

`vouchers : HashMap<usize, HashMap<usize, HashMap<usize, bool>>>`.
-/

abbrev EpochMap := List (Nat × Bool)
abbrev InputMap := List (Nat × EpochMap)
abbrev VoucherMap := List (Nat × InputMap)

/-- The merge performed for one event at source lines 149-155 (and 98-104):
`vouchers.entry(v).or_insert_with(new).entry(i).or_insert_with(new)
.entry(e).or_insert_with(|| true)`. -/
def merge_executed (vouchers : VoucherMap) (voucher_index input_index epoch_index : Nat) :
    VoucherMap :=
  entryOr vouchers voucher_index []
    (fun m2 => entryOr m2 input_index []
      (fun m3 => entryOr m3 epoch_index true (fun b => b)))

/-- Whether the triple is recorded as executed (absence reads as `false`). -/
def getVoucher (vouchers : VoucherMap) (v i e : Nat) : Bool :=
  match lookupA vouchers v with
  | none => false
  | some m2 =>
    match lookupA m2 i with
    | none => false
    | some m3 => (lookupA m3 e).getD false

/-- Whether the triple has an entry at all, of either value. -/
def voucher_present (vouchers : VoucherMap) (v i e : Nat) : Bool :=
  (((lookupA vouchers v).bind (fun m2 => lookupA m2 i)).bind
    (fun m3 => lookupA m3 e)).isSome

/-- The loop of source lines 146-156 (and 95-105): decode every position and
merge it into the ledger, in event order. -/
def merge_positions (vouchers : VoucherMap) (positions : List Nat) : VoucherMap :=
  positions.foldl
    (fun acc p =>
      let t := convert_voucher_position_to_indices p
      merge_executed acc t.1 t.2.1 t.2.2)
    vouchers

/-! ## Events, blocks and the accumulator

The event structs come from the generated contract bindings
(`crate::contracts::fee_manager_contract`), which are outside the embedded
sources; their fields are modelled from the spec (§6 "Events consumed") and
from the field accesses in the delegate.  `FeeRedeemedEv` carries a
`voucher_position` because `sync` (source line 96) reads
`ev.voucher_position` off the redemption events.
-/

/-- Modelled from the spec: the manager-created event, yielding the validator
manager address, the ERC-20 address and the fee per claim (fields as accessed
at source lines 108-110). -/
structure FeeManagerCreatedEv where
  validator_manager_cci : Nat
  erc20 : Nat
  fee_per_claim : Nat
deriving DecidableEq, Repr

/-- Modelled from the spec: the fee-redeemed event (validator address,
amount), plus the packed position field the `sync` voucher loop reads at
source line 96. -/
structure FeeRedeemedEv where
  validator : Nat
  amount : Nat
  voucher_position : Nat
deriving DecidableEq, Repr

/-- Modelled from the spec: the voucher-executed event (packed position),
read at source line 148. -/
structure VoucherExecutedEv where
  voucher_position : Nat
deriving DecidableEq, Repr

/-- Modelled from the spec: the per-block logs bloom, exposed only through
the two conservative membership tests `bloom_contains_address` and
`bloom_contains_topic` of the access port (`fold_utils::contains_address` /
`contains_topic`). -/
structure Bloom where
  containsAddress : Nat → Bool
  containsTopic : Nat → Bool

/-- Modelled from the spec: the block descriptor; the delegate uses its
number (`sync`), hash (`fold`) and logs bloom. -/
structure Block where
  number : Nat
  hash : Nat
  logs_bloom : Bloom

/-- Modelled from the spec: the topic of `VoucherExecutedFilter::signature()`.
Its numeric value is irrelevant to every claim; only which bloom test it is
fed to matters. -/
def voucher_executed_signature : Nat := 0

/-- Modelled from the spec (§3 FeeManagerAccumulator): the accumulator
`FeeManagerState`, defined in `fold/types.rs` outside the embedded sources.
Fields follow the spec plus `voucher_address`, the monitored contract
address, which `fold` reads at source line 123.  `validator_redeemed`
models the `[Option<(Address, U256)>; 8]` array as a length-8 list. -/
structure FeeManagerState where
  validator_manager_address : Nat
  erc20_address : Nat
  fee_per_claim : Nat
  validator_redeemed : List (Option (Nat × Nat))
  leftover_balance : Int
  fee_manager_balance : Nat
  vouchers : VoucherMap
  voucher_address : Nat
deriving DecidableEq, Repr

/-- Outcome of a delegate call: a typed query error produced through
`.context(..)`, or a Rust panic. -/
inductive RtError where
  | queryError : String → RtError
  | panicked : String → RtError
deriving DecidableEq, Repr

/-! ## Redemption aggregation (source lines 79-91) -/

/-- One step of the summation loop at source lines 82-87: on a repeated
validator the stored amount is bumped by `ev.amount` — ethers `U256`
addition, which panics with "arithmetic operation overflowed" when the
exact sum reaches `2 ^ 256` and otherwise produces it exactly; on a fresh
validator `ev.amount` is inserted. -/
def add_redemption (sums : List (Nat × Nat)) (ev : FeeRedeemedEv) :
    Except RtError (List (Nat × Nat)) :=
  match lookupA sums ev.validator with
  | some amount =>
    if 2 ^ 256 ≤ amount + ev.amount then
      .error (.panicked "arithmetic operation overflowed")
    else
      .ok (updateA sums ev.validator (amount + ev.amount))
  | none => .ok (updateA sums ev.validator ev.amount)

/-- `validator_redeemed_sums` after the whole loop; an overflow panic at any
event aborts the call. -/
def aggregate_redeemed (events : List FeeRedeemedEv) :
    Except RtError (List (Nat × Nat)) :=
  events.foldl
    (fun acc ev =>
      match acc with
      | .error e => .error e
      | .ok sums => add_redemption sums ev)
    (.ok [])

/-- The materialization loop at source lines 89-91 writes entry `index` of
the 8-slot array for every entry of the sums map; with more than 8 distinct
validators the write at index 8 is out of bounds and panics. -/
def materialize_redeemed (sums : List (Nat × Nat)) :
    Except RtError (List (Option (Nat × Nat))) :=
  if 8 < sums.length then .error (.panicked "index out of bounds")
  else .ok ((List.range 8).map (fun j => sums[j]?))

/-! ## sync (source lines 56-115)

The two event queries the call would issue are passed in as `Except`-valued
arguments.  The voucher loop (lines 93-105) runs over the *redemption*
events, reading their packed positions — the source-event inconsistency the
spec flags in §4.4 step 4.  The returned record is assembled per spec §4.4
steps 5-6: the source literal (lines 107-114) omits the `vouchers` and
`voucher_address` fields of the externally-defined struct, which are filled
here with the ledger just computed and the monitored address per the spec. -/
def sync (fee_manager_address : Nat)
    (creation_query : Except String (List FeeManagerCreatedEv))
    (redeemed_query : Except String (List FeeRedeemedEv)) :
    Except RtError FeeManagerState :=
  match creation_query with
  | .error _ => .error (.queryError "Error querying for fee manager created events")
  | .ok created_events =>
    match created_events.head? with
    | none => .error (.panicked "called Option::unwrap() on a None value")
    | some created_event =>
      match redeemed_query with
      | .error _ => .error (.queryError "Error querying for fee redeemed events")
      | .ok events =>
        match aggregate_redeemed events with
        | .error e => .error e
        | .ok sums =>
        match materialize_redeemed sums with
        | .error e => .error e
        | .ok validator_redeemed =>
          .ok { validator_manager_address := created_event.validator_manager_cci
                erc20_address := created_event.erc20
                fee_per_claim := created_event.fee_per_claim
                validator_redeemed := validator_redeemed
                leftover_balance := 0
                fee_manager_balance := 0
                vouchers := merge_positions [] (events.map (·.voucher_position))
                voucher_address := fee_manager_address }

/-! ## fold (source lines 117-162) -/

/-- `fold(previous_state, block)`: the voucher-executed query the call would
issue for this block is passed in as `executed_query`.  If the block's bloom
rules out the monitored address or the voucher-executed topic, the previous
state is returned unchanged (lines 126-133).  Otherwise the result is the
previous accumulator with the ledger extended (the source literal at lines
158-161 names only `vouchers` and `voucher_address`; the remaining fields of
the externally-defined accumulator are carried over per spec §4.4 step 4). -/
def fold (previous_state : FeeManagerState) (block : Block)
    (executed_query : Except String (List VoucherExecutedEv)) :
    Except RtError FeeManagerState :=
  let voucher_address := previous_state.voucher_address
  if !(block.logs_bloom.containsAddress voucher_address
       && block.logs_bloom.containsTopic voucher_executed_signature) then
    .ok previous_state
  else
    match executed_query with
    | .error _ => .error (.queryError "Error querying for voucher executed events")
    | .ok events =>
      .ok { previous_state with
            vouchers :=
              merge_positions previous_state.vouchers
                (events.map (·.voucher_position)) }

/-- One fold step: the block folded over and the value its voucher-executed
query would return. -/
structure FoldStep where
  block : Block
  executed_query : Except String (List VoucherExecutedEv)

/-- A finite sequence of folds threaded through an accumulator; any error
aborts the sequence. -/
def apply_folds (acc : FeeManagerState) : List FoldStep → Except RtError FeeManagerState
  | [] => .ok acc
  | s :: rest =>
    match fold acc s.block s.executed_query with
    | .error e => .error e
    | .ok acc2 => apply_folds acc2 rest

/-! ## Theorems -/

set_option maxHeartbeats 1600000 in
/-- Byte extraction and reassembly collapse to division and remainder:
the three decoded fields are `p / 2 ^ 128 % 2 ^ 64`, `p / 2 ^ 64 % 2 ^ 64`
and `p % 2 ^ 64`. -/
theorem convert_eq_divmod (p : Nat) :
    convert_voucher_position_to_indices p =
      (p / 2 ^ 128 % 2 ^ 64, p / 2 ^ 64 % 2 ^ 64, p % 2 ^ 64) := by
  unfold convert_voucher_position_to_indices
  norm_num [beBytes, beU64, List.foldl]
  omega

/-- C4: for all voucher_index `v`, input_index `i`, epoch_index `e` below
`2 ^ 64`, decoding the packed position `v * 2 ^ 128 + i * 2 ^ 64 + e`
yields exactly the triple `(v, i, e)`. -/
theorem decode_encode_round_trip (v i e : Nat)
    (hv : v < 2 ^ 64) (hi : i < 2 ^ 64) (he : e < 2 ^ 64) :
    convert_voucher_position_to_indices (encode_voucher_position v i e) = (v, i, e) := by
  rw [convert_eq_divmod]
  unfold encode_voucher_position
  simp only [Prod.mk.injEq]
  refine ⟨?_, ?_, ?_⟩ <;> omega

/-- Witness for C4 at `(v, i, e) = (5, 2, 9)`. -/
theorem decode_encode_round_trip_witness :
    convert_voucher_position_to_indices (encode_voucher_position 5 2 9) = (5, 2, 9) :=
  decode_encode_round_trip 5 2 9 (by decide) (by decide) (by decide)

/-! ### Association-list lemmas -/

theorem lookupA_entryOr_self {α : Type} (m : List (Nat × α)) (k : Nat) (d : α)
    (g : α → α) :
    lookupA (entryOr m k d g) k = some (g ((lookupA m k).getD d)) := by
  induction m with
  | nil => simp [entryOr, lookupA]
  | cons hd tl ih =>
    obtain ⟨k', v⟩ := hd
    by_cases hk : k' = k
    · subst hk; simp [entryOr, lookupA]
    · simp [entryOr, lookupA, hk, ih]

theorem lookupA_entryOr_ne {α : Type} (m : List (Nat × α)) (k a : Nat) (d : α)
    (g : α → α) (h : a ≠ k) :
    lookupA (entryOr m k d g) a = lookupA m a := by
  have hka : ¬ k = a := fun hh => h hh.symm
  induction m with
  | nil => simp [entryOr, lookupA, hka]
  | cons hd tl ih =>
    obtain ⟨k', v⟩ := hd
    by_cases hk : k' = k
    · subst hk
      simp [entryOr, lookupA, hka]
    · simp [entryOr, lookupA, hk, ih]

theorem entryOr_entryOr {α : Type} (m : List (Nat × α)) (k : Nat) (d : α)
    (g₁ g₂ : α → α) :
    entryOr (entryOr m k d g₁) k d g₂ = entryOr m k d (fun x => g₂ (g₁ x)) := by
  induction m with
  | nil => simp [entryOr]
  | cons hd tl ih =>
    obtain ⟨k', v⟩ := hd
    by_cases hk : k' = k
    · subst hk; simp [entryOr]
    · simp [entryOr, hk, ih]

theorem entryOr_congr {α : Type} (m : List (Nat × α)) (k : Nat) (d : α)
    (g g' : α → α) (h : ∀ x, g x = g' x) :
    entryOr m k d g = entryOr m k d g' := by
  induction m with
  | nil => simp [entryOr, h]
  | cons hd tl ih =>
    obtain ⟨k', v⟩ := hd
    by_cases hk : k' = k <;> simp [entryOr, hk, h, ih]

theorem entryOr_lookup_fixed {α : Type} (m : List (Nat × α)) (k : Nat) (d : α)
    (g : α → α) (w : α) (hl : lookupA m k = some w) (hg : g w = w) :
    entryOr m k d g = m := by
  induction m with
  | nil => simp [lookupA] at hl
  | cons hd tl ih =>
    obtain ⟨k', v⟩ := hd
    by_cases hk : k' = k
    · subst hk
      simp [lookupA] at hl
      subst hl
      simp [entryOr, hg]
    · simp [lookupA, hk] at hl
      simp [entryOr, hk, ih hl]

theorem lookupA_updateA_self {α : Type} (m : List (Nat × α)) (k : Nat) (v : α) :
    lookupA (updateA m k v) k = some v := by
  induction m with
  | nil => simp [updateA, lookupA]
  | cons hd tl ih =>
    obtain ⟨k', v'⟩ := hd
    by_cases hk : k' = k
    · subst hk; simp [updateA, lookupA]
    · simp [updateA, lookupA, hk, ih]

theorem lookupA_updateA_ne {α : Type} (m : List (Nat × α)) (k a : Nat) (v : α)
    (h : a ≠ k) :
    lookupA (updateA m k v) a = lookupA m a := by
  have hka : ¬ k = a := fun hh => h hh.symm
  induction m with
  | nil => simp [updateA, lookupA, hka]
  | cons hd tl ih =>
    obtain ⟨k', v'⟩ := hd
    by_cases hk : k' = k
    · subst hk
      simp [updateA, lookupA, hka]
    · simp [updateA, lookupA, hk, ih]

theorem updateA_keys_of_some {α : Type} (m : List (Nat × α)) (k : Nat) (v : α)
    (w : α) (hl : lookupA m k = some w) :
    (updateA m k v).map Prod.fst = m.map Prod.fst := by
  induction m with
  | nil => simp [lookupA] at hl
  | cons hd tl ih =>
    obtain ⟨k', v'⟩ := hd
    by_cases hk : k' = k
    · subst hk; simp [updateA]
    · simp [lookupA, hk] at hl
      simp [updateA, hk, ih hl]

theorem updateA_keys_of_none {α : Type} (m : List (Nat × α)) (k : Nat) (v : α)
    (hl : lookupA m k = none) :
    (updateA m k v).map Prod.fst = m.map Prod.fst ++ [k] := by
  induction m with
  | nil => simp [updateA]
  | cons hd tl ih =>
    obtain ⟨k', v'⟩ := hd
    by_cases hk : k' = k
    · subst hk; simp [lookupA] at hl
    · simp [lookupA, hk] at hl
      simp [updateA, hk, ih hl]

theorem lookupA_eq_none_iff {α : Type} (m : List (Nat × α)) (k : Nat) :
    lookupA m k = none ↔ k ∉ m.map Prod.fst := by
  induction m with
  | nil => simp [lookupA]
  | cons hd tl ih =>
    obtain ⟨k', v⟩ := hd
    by_cases hk : k' = k
    · subst hk; simp [lookupA]
    · have hkk : ¬ k = k' := fun hh => hk hh.symm
      simp [lookupA, hk, ih, hkk]

/-- C10: decoding is total on 256-bit inputs — each decoded index is below
`2 ^ 64` — and the result depends only on the low 24 bytes of the big-endian
representation: two inputs agreeing modulo `2 ^ 192` (equal bytes [8,32))
decode identically, whatever their reserved bytes [0,8) are. -/
theorem decode_total_and_reserved_irrelevant (p q : Nat)
    (hp : p < 2 ^ 256) (hq : q < 2 ^ 256)
    (hlow : p % 2 ^ 192 = q % 2 ^ 192) :
    ((convert_voucher_position_to_indices p).1 < 2 ^ 64 ∧
     (convert_voucher_position_to_indices p).2.1 < 2 ^ 64 ∧
     (convert_voucher_position_to_indices p).2.2 < 2 ^ 64) ∧
    convert_voucher_position_to_indices p = convert_voucher_position_to_indices q := by
  rw [convert_eq_divmod, convert_eq_divmod]
  simp only [Prod.mk.injEq]
  refine ⟨⟨?_, ?_, ?_⟩, ?_, ?_, ?_⟩ <;> omega

/-- Witness for C10: `2 ^ 255 + 7` (reserved bytes set) and `7` decode to
the same triple, with all components below `2 ^ 64`. -/
theorem decode_total_and_reserved_irrelevant_witness :
    ((convert_voucher_position_to_indices (2 ^ 255 + 7)).1 < 2 ^ 64 ∧
     (convert_voucher_position_to_indices (2 ^ 255 + 7)).2.1 < 2 ^ 64 ∧
     (convert_voucher_position_to_indices (2 ^ 255 + 7)).2.2 < 2 ^ 64) ∧
    convert_voucher_position_to_indices (2 ^ 255 + 7) =
      convert_voucher_position_to_indices 7 :=
  decode_total_and_reserved_irrelevant (2 ^ 255 + 7) 7
    (by norm_num) (by norm_num) (by norm_num)

/-! ### Monotonicity of executed vouchers -/

theorem getVoucher_merge_executed_mono (L : VoucherMap) (v i e v1 i1 e1 : Nat)
    (h : getVoucher L v i e = true) :
    getVoucher (merge_executed L v1 i1 e1) v i e = true := by
  unfold getVoucher at h ⊢
  unfold merge_executed
  by_cases hv : v = v1
  · subst hv
    rw [lookupA_entryOr_self]
    cases h1 : lookupA L v with
    | none => rw [h1] at h; simp at h
    | some m2 =>
      rw [h1] at h
      simp only [Option.getD_some, Option.some_bind] at h ⊢
      by_cases hi : i = i1
      · subst hi
        rw [lookupA_entryOr_self]
        cases h2 : lookupA m2 i with
        | none => rw [h2] at h; simp at h
        | some m3 =>
          rw [h2] at h
          simp only [Option.getD_some, Option.some_bind] at h ⊢
          by_cases he : e = e1
          · subst he
            rw [lookupA_entryOr_self]
            cases h3 : lookupA m3 e with
            | none => rw [h3] at h; simp at h
            | some b =>
              rw [h3] at h
              simp only [Option.getD_some] at h
              simp [h]
          · rw [lookupA_entryOr_ne _ _ _ _ _ he]
            exact h
      · rw [lookupA_entryOr_ne _ _ _ _ _ hi]
        exact h
  · rw [lookupA_entryOr_ne _ _ _ _ _ hv]
    exact h

theorem getVoucher_merge_positions_mono (ps : List Nat) (L : VoucherMap)
    (v i e : Nat) (h : getVoucher L v i e = true) :
    getVoucher (merge_positions L ps) v i e = true := by
  induction ps generalizing L with
  | nil => exact h
  | cons p rest ih =>
    unfold merge_positions at ih ⊢
    simp only [List.foldl_cons]
    exact ih _ (getVoucher_merge_executed_mono _ _ _ _ _ _ _ h)

theorem getVoucher_fold_mono (prev : FeeManagerState) (block : Block)
    (q : Except String (List VoucherExecutedEv)) (next : FeeManagerState)
    (v i e : Nat) (hf : fold prev block q = .ok next)
    (h : getVoucher prev.vouchers v i e = true) :
    getVoucher next.vouchers v i e = true := by
  unfold fold at hf
  by_cases hb : (block.logs_bloom.containsAddress prev.voucher_address
      && block.logs_bloom.containsTopic voucher_executed_signature) = true
  · rw [if_neg (by simp [hb])] at hf
    cases q with
    | error msg => simp at hf
    | ok evs =>
      simp only [Except.ok.injEq] at hf
      subst hf
      exact getVoucher_merge_positions_mono _ _ _ _ _ h
  · have hb' : (block.logs_bloom.containsAddress prev.voucher_address
        && block.logs_bloom.containsTopic voucher_executed_signature) = false := by
      cases hA : block.logs_bloom.containsAddress prev.voucher_address <;>
        cases hT : block.logs_bloom.containsTopic voucher_executed_signature <;>
          simp_all
    rw [if_pos (by simp [hb'])] at hf
    simp only [Except.ok.injEq] at hf
    subst hf
    exact h

/-- A bloom whose tests report everything absent. -/
def bloom_absent : Bloom := ⟨fun _ => false, fun _ => false⟩

/-- A bloom whose tests report everything possibly present. -/
def bloom_present : Bloom := ⟨fun _ => true, fun _ => true⟩

def block_absent : Block := ⟨11, 11, bloom_absent⟩

def block_present : Block := ⟨12, 12, bloom_present⟩

/-- A sample accumulator with one redeemed validator and one executed
voucher triple, used as the concrete input of several witnesses. -/
def state_w : FeeManagerState :=
  { validator_manager_address := 0xAA
    erc20_address := 0xBB
    fee_per_claim := 100
    validator_redeemed := [some (1, 30), none, none, none, none, none, none, none]
    leftover_balance := 0
    fee_manager_balance := 0
    vouchers := [(5, [(2, [(9, true)])])]
    voucher_address := 3 }

/-! ### Bloom short-circuit and frame -/

/-- C1: if the block's logs bloom reports the monitored contract address
absent or the voucher-executed event signature absent, `fold` returns
`.ok previous` for every value the voucher-executed query could have
produced — the result does not depend on the query argument, so the call
issues no query. -/
theorem fold_bloom_short_circuit (prev : FeeManagerState) (block : Block)
    (q : Except String (List VoucherExecutedEv))
    (h : block.logs_bloom.containsAddress prev.voucher_address = false ∨
         block.logs_bloom.containsTopic voucher_executed_signature = false) :
    fold prev block q = .ok prev := by
  unfold fold
  rcases h with h | h <;> simp [h]

/-- Witness for C1: with an all-absent bloom, `fold` returns the previous
accumulator even when the (never consulted) query would have failed. -/
theorem fold_bloom_short_circuit_witness :
    fold state_w block_absent (.error "transport down") = .ok state_w :=
  fold_bloom_short_circuit state_w block_absent (.error "transport down") (Or.inl rfl)

/-- C2: when the bloom does not short-circuit and the voucher-executed query
succeeds, the accumulator returned by `fold` agrees with the previous one on
`validator_manager_address`, `erc20_address`, `fee_per_claim`,
`validator_redeemed`, `leftover_balance` and `fee_manager_balance`; only the
voucher ledger may change. -/
theorem fold_frame (prev : FeeManagerState) (block : Block)
    (evs : List VoucherExecutedEv) (next : FeeManagerState)
    (haddr : block.logs_bloom.containsAddress prev.voucher_address = true)
    (htopic : block.logs_bloom.containsTopic voucher_executed_signature = true)
    (h : fold prev block (.ok evs) = .ok next) :
    next.validator_manager_address = prev.validator_manager_address ∧
    next.erc20_address = prev.erc20_address ∧
    next.fee_per_claim = prev.fee_per_claim ∧
    next.validator_redeemed = prev.validator_redeemed ∧
    next.leftover_balance = prev.leftover_balance ∧
    next.fee_manager_balance = prev.fee_manager_balance := by
  unfold fold at h
  simp only [haddr, htopic, Bool.and_self, Bool.not_true, Bool.false_eq_true,
    if_false, Bool.and_true, Bool.true_and, Except.ok.injEq] at h
  subst h
  exact ⟨rfl, rfl, rfl, rfl, rfl, rfl⟩

/-- The accumulator produced from `state_w` by folding one voucher-executed
event with packed position 7. -/
def next_w : FeeManagerState :=
  { state_w with vouchers := merge_positions state_w.vouchers [7] }

/-- Witness for C2 at `state_w`, a bloom that rules nothing out, and a
single voucher-executed event. -/
theorem fold_frame_witness :
    next_w.validator_manager_address = state_w.validator_manager_address ∧
    next_w.erc20_address = state_w.erc20_address ∧
    next_w.fee_per_claim = state_w.fee_per_claim ∧
    next_w.validator_redeemed = state_w.validator_redeemed ∧
    next_w.leftover_balance = state_w.leftover_balance ∧
    next_w.fee_manager_balance = state_w.fee_manager_balance :=
  fold_frame state_w block_present [⟨7⟩] next_w rfl rfl rfl

/-! ### Merge idempotence -/

/-- C9: merging an executed triple twice yields the same ledger as merging
it once, and merging a triple that is already present returns the ledger
value unchanged. -/
theorem merge_executed_idempotent (L : VoucherMap) (v i e : Nat) :
    merge_executed (merge_executed L v i e) v i e = merge_executed L v i e ∧
    (voucher_present L v i e = true → merge_executed L v i e = L) := by
  constructor
  · unfold merge_executed
    rw [entryOr_entryOr]
    apply entryOr_congr
    intro m2
    rw [entryOr_entryOr]
    apply entryOr_congr
    intro m3
    rw [entryOr_entryOr]
  · intro hp
    unfold voucher_present at hp
    rw [Option.isSome_iff_exists] at hp
    obtain ⟨b, hb⟩ := hp
    rw [Option.bind_eq_some] at hb
    obtain ⟨m3, h23, h3⟩ := hb
    rw [Option.bind_eq_some] at h23
    obtain ⟨m2, h1, h2⟩ := h23
    unfold merge_executed
    exact entryOr_lookup_fixed _ _ _ _ m2 h1
      (entryOr_lookup_fixed _ _ _ _ m3 h2
        (entryOr_lookup_fixed _ _ _ _ b h3 rfl))

/-- Witness for C9 at the singleton ledger holding `(5, 2, 9)`. -/
theorem merge_executed_idempotent_witness :
    merge_executed (merge_executed [(5, [(2, [(9, true)])])] 5 2 9) 5 2 9 =
      merge_executed [(5, [(2, [(9, true)])])] 5 2 9 ∧
    merge_executed [(5, [(2, [(9, true)])])] 5 2 9 = [(5, [(2, [(9, true)])])] :=
  ⟨(merge_executed_idempotent [(5, [(2, [(9, true)])])] 5 2 9).1,
   (merge_executed_idempotent [(5, [(2, [(9, true)])])] 5 2 9).2 (by decide)⟩

/-- C3: once a triple `(v, i, e)` is marked executed in an accumulator, it
remains marked executed in the accumulator produced by any finite sequence
of fold steps (arbitrary blocks and query outcomes). -/
theorem executed_monotonic_over_folds (acc : FeeManagerState)
    (steps : List FoldStep) (v i e : Nat) (acc2 : FeeManagerState)
    (hexec : getVoucher acc.vouchers v i e = true)
    (h : apply_folds acc steps = .ok acc2) :
    getVoucher acc2.vouchers v i e = true := by
  induction steps generalizing acc with
  | nil =>
    unfold apply_folds at h
    simp only [Except.ok.injEq] at h
    subst h
    exact hexec
  | cons s rest ih =>
    unfold apply_folds at h
    cases hf : fold acc s.block s.executed_query with
    | error msg => rw [hf] at h; simp at h
    | ok accm =>
      rw [hf] at h
      exact ih accm
        (getVoucher_fold_mono acc s.block s.executed_query accm v i e hf hexec) h

/-- Steps used by the C3 witness: one bloom-short-circuited block followed by
one block that folds the voucher-executed event with packed position 7. -/
def steps_w : List FoldStep := [⟨block_absent, .ok []⟩, ⟨block_present, .ok [⟨7⟩]⟩]

/-- Witness for C3: the triple `(5, 2, 9)` of `state_w` stays executed
across both folds of `steps_w`. -/
theorem executed_monotonic_over_folds_witness :
    getVoucher next_w.vouchers 5 2 9 = true :=
  executed_monotonic_over_folds state_w steps_w 5 2 9 next_w (by decide) rfl

/-! ### Error handling of sync -/

/-- Nine redemption events from nine distinct validator addresses. -/
def nine_distinct_redemptions : List FeeRedeemedEv :=
  (List.range 9).map (fun j => ⟨j + 1, 10, 0⟩)

/-- C5 defect witness: given redemption events from 9 distinct validators,
`sync` reaches the write at index 8 of the 8-slot `validator_redeemed` array
(source lines 89-91), which is out of bounds and panics; the delegate
defines no TooManyValidators error. -/
theorem sync_nine_validators_panics :
    sync 0xAA (.ok [⟨0xAA, 0xBB, 100⟩]) (.ok nine_distinct_redemptions) =
      .error (.panicked "index out of bounds") := rfl

/-- C6 defect witness: when the creation-event query returns an empty
sequence, `sync` panics on `events.first().unwrap()` (source line 71)
instead of failing with a typed MissingCreationEvent error; the delegate
defines no such error. -/
theorem sync_missing_creation_panics :
    sync 0xAA (.ok []) (.ok []) =
      .error (.panicked "called Option::unwrap() on a None value") := rfl

/-! ### Redemption aggregation -/

/-- The exact total of the amounts of the events naming validator `a`. -/
def sum_amounts (events : List FeeRedeemedEv) (a : Nat) : Nat :=
  ((events.filter (fun ev => ev.validator == a)).map (fun ev => ev.amount)).sum

theorem sum_amounts_append (evs : List FeeRedeemedEv) (ev : FeeRedeemedEv)
    (a : Nat) :
    sum_amounts (evs ++ [ev]) a =
      sum_amounts evs a + (if ev.validator == a then ev.amount else 0) := by
  unfold sum_amounts
  rw [List.filter_append]
  by_cases h : (ev.validator == a) = true <;> simp [List.filter_cons, h]

theorem sum_amounts_le_total (events : List FeeRedeemedEv) (a : Nat) :
    sum_amounts events a ≤ (events.map (fun ev => ev.amount)).sum := by
  induction events with
  | nil => simp [sum_amounts]
  | cons ev rest ih =>
    have hcons : sum_amounts (ev :: rest) a =
        (if (ev.validator == a) = true then ev.amount else 0) +
          sum_amounts rest a := by
      unfold sum_amounts
      by_cases h : (ev.validator == a) = true <;> simp [List.filter_cons, h]
    rw [hcons, List.map_cons, List.sum_cons]
    by_cases h : (ev.validator == a) = true <;> simp [h] <;> omega

/-- When no validator's total reaches `2 ^ 256`, the aggregation loop never
hits the overflow panic; it returns a map whose keys repeat no address and
whose entry for address `a` exists iff some event names `a`, holding the
exact total of `a`'s amounts. -/
theorem aggregate_redeemed_spec (events : List FeeRedeemedEv)
    (hsum : ∀ a, sum_amounts events a < 2 ^ 256) :
    ∃ sums, aggregate_redeemed events = .ok sums ∧
      (sums.map Prod.fst).Nodup ∧
      ∀ a, lookupA sums a =
        if events.any (fun ev => ev.validator == a) then
          some (sum_amounts events a)
        else none := by
  induction events using List.reverseRecOn with
  | nil =>
    refine ⟨[], rfl, by simp, fun a => ?_⟩
    simp [lookupA, aggregate_redeemed]
  | append_singleton evs ev ih =>
    have hsum' : ∀ a, sum_amounts evs a < 2 ^ 256 := by
      intro a
      have hh := hsum a
      rw [sum_amounts_append] at hh
      omega
    obtain ⟨sums, hok, hnodup, hlook⟩ := ih hsum'
    have hstep : aggregate_redeemed (evs ++ [ev]) = add_redemption sums ev := by
      unfold aggregate_redeemed at hok ⊢
      rw [List.foldl_append, List.foldl_cons, List.foldl_nil, hok]
    by_cases hany : evs.any (fun e2 => e2.validator == ev.validator) = true
    · have hl := hlook ev.validator
      rw [if_pos hany] at hl
      have hbound : sum_amounts evs ev.validator + ev.amount < 2 ^ 256 := by
        have hh := hsum ev.validator
        rw [sum_amounts_append] at hh
        simpa using hh
      refine ⟨updateA sums ev.validator
        (sum_amounts evs ev.validator + ev.amount), ?_, ?_, ?_⟩
      · rw [hstep]
        simp only [add_redemption, hl]
        rw [if_neg (by omega)]
      · rw [updateA_keys_of_some _ _ _ _ hl]
        exact hnodup
      · intro a
        by_cases hva : ev.validator = a
        · subst hva
          rw [lookupA_updateA_self,
            if_pos (by simp [List.any_append]), sum_amounts_append]
          simp
        · rw [lookupA_updateA_ne _ _ _ _ (fun hh => hva hh.symm), hlook a]
          have hbeq : (ev.validator == a) = false := by simp [hva]
          simp [List.any_append, hbeq, sum_amounts_append]
    · simp only [Bool.not_eq_true] at hany
      have hl := hlook ev.validator
      rw [if_neg (by simp [hany])] at hl
      have hz : sum_amounts evs ev.validator = 0 := by
        unfold sum_amounts
        have hfil : evs.filter (fun e2 => e2.validator == ev.validator) = [] := by
          rw [List.filter_eq_nil_iff]
          intro e2 he2
          have := List.any_eq_false.mp hany e2 he2
          simpa using this
        simp [hfil]
      refine ⟨updateA sums ev.validator ev.amount, ?_, ?_, ?_⟩
      · rw [hstep]
        simp only [add_redemption, hl]
      · rw [updateA_keys_of_none _ _ _ hl]
        have hnotin : ev.validator ∉ sums.map Prod.fst :=
          (lookupA_eq_none_iff _ _).mp hl
        simp [List.nodup_append, hnodup, hnotin]
      · intro a
        by_cases hva : ev.validator = a
        · subst hva
          rw [lookupA_updateA_self,
            if_pos (by simp [List.any_append]), sum_amounts_append, hz]
          simp
        · rw [lookupA_updateA_ne _ _ _ _ (fun hh => hva hh.symm), hlook a]
          have hbeq : (ev.validator == a) = false := by simp [hva]
          simp [List.any_append, hbeq, sum_amounts_append]

/-- C8: whenever no validator's total overflows U256 — each per-address sum
of event amounts stays below `2 ^ 256`; on any larger total the U256
addition panics — the aggregation completes with one entry per distinct
validator address: the entry for address `a` exists iff some event names
`a`, and then holds the exact sum of all of `a`'s event amounts; in
particular events `(0x1, 30)` and `(0x1, 20)` aggregate to exactly
`[(0x1, 50)]` and `sync` materializes `validator_redeemed` holding exactly
`(0x1, 50)`. -/
theorem aggregation_per_validator_sum (events : List FeeRedeemedEv)
    (hsum : ∀ a, sum_amounts events a < 2 ^ 256) :
    (∃ sums, aggregate_redeemed events = .ok sums ∧
      (sums.map Prod.fst).Nodup ∧
      ∀ a, lookupA sums a =
        if events.any (fun ev => ev.validator == a) then
          some (sum_amounts events a)
        else none) ∧
    aggregate_redeemed [⟨1, 30, 0⟩, ⟨1, 20, 0⟩] = .ok [(1, 50)] ∧
    (sync 0xAA (.ok [⟨0xAA, 0xBB, 100⟩])
        (.ok [⟨1, 30, 0⟩, ⟨1, 20, 0⟩])).map (fun s => s.validator_redeemed) =
      .ok [some (1, 50), none, none, none, none, none, none, none] :=
  ⟨aggregate_redeemed_spec events hsum, rfl, rfl⟩

/-- Witness for C8 at the two events `(0x1, 30)` and `(0x1, 20)`: every
per-address total is at most 50, far below `2 ^ 256`. -/
theorem aggregation_per_validator_sum_witness :
    (∃ sums, aggregate_redeemed [⟨1, 30, 0⟩, ⟨1, 20, 0⟩] = .ok sums ∧
      (sums.map Prod.fst).Nodup ∧
      ∀ a, lookupA sums a =
        if ([⟨1, 30, 0⟩, ⟨1, 20, 0⟩] : List FeeRedeemedEv).any
            (fun ev => ev.validator == a) then
          some (sum_amounts [⟨1, 30, 0⟩, ⟨1, 20, 0⟩] a)
        else none) ∧
    aggregate_redeemed [⟨1, 30, 0⟩, ⟨1, 20, 0⟩] = .ok [(1, 50)] ∧
    (sync 0xAA (.ok [⟨0xAA, 0xBB, 100⟩])
        (.ok [⟨1, 30, 0⟩, ⟨1, 20, 0⟩])).map (fun s => s.validator_redeemed) =
      .ok [some (1, 50), none, none, none, none, none, none, none] :=
  aggregation_per_validator_sum [⟨1, 30, 0⟩, ⟨1, 20, 0⟩]
    (fun a => lt_of_le_of_lt (sum_amounts_le_total _ a) (by decide))


/-! ### The sync end-to-end scenario -/

/-- C7 counterexample: in the claim's scenario — creation event
`(0xAA, 0xBB, 100)` and redemption event `(0x1, 30)` with packed position
0 — `sync` consumes no voucher-executed event (it queries only creation and
redemption events), and the triple `(5, 2, 9)` is not marked executed in
the returned accumulator. -/
theorem sync_scenario_counterexample :
    (sync 0xAA (.ok [⟨0xAA, 0xBB, 100⟩]) (.ok [⟨1, 30, 0⟩])).map
      (fun s => getVoucher s.vouchers 5 2 9) = .ok false := rfl

/-- C7 amended: `sync` sources voucher executions from the redemption
events' packed positions, not from voucher-executed events.  With creation
event `(0xAA, 0xBB, 100)` and redemption event `(0x1, 30)` whose packed
position encodes `(5, 2, 9)`, the returned accumulator has
`fee_per_claim = 100`, `validator_redeemed` holding exactly `(0x1, 30)`,
and the triple `(5, 2, 9)` marked executed. -/
theorem sync_scenario_amended :
    (sync 0xAA (.ok [⟨0xAA, 0xBB, 100⟩])
        (.ok [⟨1, 30, encode_voucher_position 5 2 9⟩])).map
      (fun s => (s.fee_per_claim, s.validator_redeemed,
        getVoucher s.vouchers 5 2 9)) =
      .ok (100, [some (1, 30), none, none, none, none, none, none, none], true) := rfl

end FeeManagerFold
